import Mathlib

/-!
# Verification of the console argument-parsing library

A shallow embedding of the argument normalization and resolution engine of
the symfony-cli console library: the "fixArgs" token reordering state
machine, the command-name resolver ("Command.HasName",
"Application.BestCommand"), the positional-argument model ("args.Get",
"args.Tail", "checkRequiredArgs"), the run error flow ("Command.Run",
"Application.Run" with the After hook), and the context flag-lookup chain
("Context.IsSet", "Context.Args", "Context.rawArgs").

Go strings are modelled as Lean "String"; all string manipulation is
written out structurally over the underlying character list so that every
definition is executable and kernel-reducible.
-/

set_option autoImplicit false
set_option maxRecDepth 4000

namespace Console

/-! ## String helpers

Structural models of the Go standard-library string functions used by the
source ("strings.Split", "strings.Index", "strings.TrimLeft",
"strings.Trim", "strings.TrimSpace", "strings.Repeat", "strings.ToLower"
restricted to the ASCII range, and the byte accesses on flag tokens, which
are ASCII in every code path that reaches them). -/

/-- Index of the first occurrence of a character, as "strings.Index". -/
def charIndexOf (c : Char) : List Char → Option Nat
  | [] => none
  | x :: xs => if x = c then some 0 else (charIndexOf c xs).map (fun n => n + 1)

/-- Split on a separator character, as "strings.Split" with a one-character
separator. -/
def splitOnCharAux (sep : Char) : List Char → List Char → List (List Char)
  | [], acc => [acc.reverse]
  | c :: rest, acc =>
    if c = sep then acc.reverse :: splitOnCharAux sep rest []
    else splitOnCharAux sep rest (c :: acc)

def splitColon (l : List Char) : List (List Char) := splitOnCharAux ':' l []

/-- "strings.Repeat". -/
def repeatStr (s : String) : Nat → String
  | 0 => ""
  | n + 1 => s ++ repeatStr s n

/-- "strings.TrimSpace". -/
def trimSpace (s : String) : String :=
  String.mk (((s.data.dropWhile Char.isWhitespace).reverse.dropWhile
    Char.isWhitespace).reverse)

/-- "strings.Trim(name, \x22-\x22)": dashes removed from both ends. -/
def trimDashes (l : List Char) : List Char :=
  ((l.dropWhile (fun c => c == '-')).reverse.dropWhile (fun c => c == '-')).reverse

/-- ASCII case folding of one character, the fragment of "strings.ToLower"
exercised by command names. -/
def charLowerAscii (c : Char) : Char :=
  if c.toNat ≥ 65 ∧ c.toNat ≤ 90 then Char.ofNat (c.toNat + 32) else c

def toLowerAscii (s : String) : String := String.mk (s.data.map charLowerAscii)

/-! ## Flag model

The Go "Flag" interface is implemented by one struct per value type
(flags.go, logging_flags.go).  For the reordering engine only three
observations on a flag matter (args.go / part_002): its canonical "Name",
its "Aliases", and whether it is a "*BoolFlag" or the "*verbosityFlag"
pseudo-type; everything else (IntFlag, StringFlag, ...) takes its value
from the token or the following token.  The kind field records which of
these three classes the struct belongs to. -/

inductive FlagKind where
  /-- the "*BoolFlag" struct -/
  | boolKind
  /-- the "*verbosityFlag" struct (logging_flags.go) -/
  | verbosityKind
  /-- every other flag struct: Int, Int64, Uint, Float64, Duration,
  String, slices, maps, Generic -/
  | valueKind
deriving DecidableEq

structure Flag where
  name : String
  aliases : List String := []
  kind : FlagKind := .valueKind
  /-- "ShortAlias" of the verbosity flag, empty for other kinds -/
  shortAlias : String := ""
  envVars : List String := []
deriving DecidableEq

/-- "commaWhitespace.ReplaceAllString(part, \x22\x22)" in flagNames
(flag.go): the regular expression "[, ]+.*" erases everything from the
first comma or space on. -/
def stripNameSuffix (s : String) : String :=
  String.mk (s.data.takeWhile (fun c => !(c == ',') && !(c == ' ')))

/-- "len(terminal.LogLevels)". Modelled from the spec: the terminal
package is outside this repository; the spec (section 6) documents the
verbosity shortcut family as -v, -vv and -vvv plus the long forms, so the
levels table has five entries and "len(LogLevels)-2 = 3" short aliases. -/
def logLevelsTotal : Nat := 5

/-- "Flag.Names()": flagNames (flag.go) for ordinary flags, and the
dedicated "verbosityFlag.Names()" (logging_flags.go) for the verbosity
pseudo-flag. -/
def flagNames (f : Flag) : List String :=
  match f.kind with
  | .verbosityKind =>
    (if f.name = "" then [] else [f.name]) ++ f.aliases ++
      (List.range (logLevelsTotal - 2)).map (fun i => repeatStr f.shortAlias (i + 1))
  | _ => (f.name :: f.aliases).map stripNameSuffix

/-- "flagName" (flag.go): the canonical name field. -/
def flagName (f : Flag) : String := f.name

/-- "findFlag" (part_002): first flag one of whose names equals the given
name. -/
def findFlag (flagDefs : List Flag) (name : String) : Option Flag :=
  flagDefs.find? (fun f => (flagNames f).contains name)

/-- "expandShortcut" (part_002): aliases are rewritten to the canonical
name, except for the verbosity flag whose short forms must stay as typed. -/
def expandShortcut (flagDefs : List Flag) (name : String) : String :=
  match findFlag flagDefs name with
  | some f => if f.kind = .verbosityKind then name else flagName f
  | none => name

/-! ## Command model (part_010) -/

structure Alias where
  name : String
  hidden : Bool := false
deriving DecidableEq

/-- One positional argument slot ("Arg", args_enhancement.go). -/
structure Arg where
  name : String
  default : String := ""
  description : String := ""
  optional : Bool := false
  slice : Bool := false
deriving DecidableEq

/-- "FlagParsingMode" (part_002): FlagParsingNormal, FlagParsingSkipped,
FlagParsingSkippedAfterFirstArg. The Go zero value is FlagParsingNormal. -/
inductive FlagParsingMode where
  | normal
  | skipped
  | skippedAfterFirstArg
deriving DecidableEq

/-- "Command" (part_010), restricted to the fields the reordering engine,
the resolver and the argument checks read.  "UserName" is a mutation
recorded at match time and carries no information used later by the
modelled operations, so it is omitted. -/
structure Command where
  name : String
  aliases : List Alias := []
  category : String := ""
  flagParsing : FlagParsingMode := .normal
  args : List Arg := []
deriving DecidableEq

/-- The "possibilities" list built at the top of "Command.HasName":
the full name ("category:name" when a category is present) followed by
every alias, hidden ones included. -/
def commandPossibilities (c : Command) : List String :=
  (if c.category ≠ "" then [c.category ++ ":" ++ c.name] else [c.name]) ++
    c.aliases.map Alias.name

/-- Whether each part is a prefix of the corresponding segment.  Used to
model the regular expression of "Command.HasName":
"^" ++ join(quotedParts, "[^:]*:") ++ "[^:]*$" matches a possibility
exactly when the possibility has the same number of colon-separated
segments and each (literal, colon-free) part is a prefix of its segment. -/
def segmentsMatch : List (List Char) → List (List Char) → Bool
  | [], [] => true
  | p :: ps, s :: ss => p.isPrefixOf s && segmentsMatch ps ss
  | _, _ => false

def fuzzyMatch (name possibility : String) : Bool :=
  segmentsMatch (splitColon name.data) (splitColon possibility.data)

/-- "Command.HasName" (part_010): exact membership in the possibilities,
then, when not in exact mode, the segment-wise prefix match. -/
def hasName (c : Command) (name : String) (exact : Bool) : Bool :=
  if name ∈ commandPossibilities c then true
  else if exact then false
  else (commandPossibilities c).any (fun p => fuzzyMatch name p)

/-- The local "findCommand" closure of fixArgs (part_002): an exact match
wins immediately; otherwise a unique fuzzy match is accepted. -/
def findCommand (cmdDefs : List Command) (name : String) : Option Command :=
  match cmdDefs.find? (fun c => hasName c name true) with
  | some c => some c
  | none =>
    match cmdDefs.filter (fun c => hasName c name false) with
    | [m] => some m
    | _ => none

/-- "Application.Command" (application.go): first exact match. -/
def applicationCommand (cmds : List Command) (name : String) : Option Command :=
  cmds.find? (fun c => hasName c name true)

/-- "Application.BestCommand" (application.go): the name is lower-cased,
an exact match wins, else a unique fuzzy match. -/
def bestCommand (cmds : List Command) (name : String) : Option Command :=
  let lname := toLowerAscii name
  match applicationCommand cmds lname with
  | some c => some c
  | none =>
    match cmds.filter (fun c => hasName c lname false) with
    | [m] => some m
    | _ => none

/-! ## The fixArgs reordering state machine (part_002) -/

/-- The local "isFlag" closure: length over one and a leading dash. -/
def isFlagToken (s : String) : Bool :=
  s.length > 1 && s.data.head? == some '-'

/-- The local "cleanFlag" closure: cut at the first equals sign, strip
leading dashes, expand a shortcut to its canonical name. -/
def cleanFlag (flagDefs : List Flag) (name : String) : String :=
  expandShortcut flagDefs
    (String.mk ((name.data.takeWhile (fun c => !(c == '='))).dropWhile
      (fun c => c == '-')))

/-- The local "translateShortcutFlags" closure: remember whether the token
had two leading dashes, trim dashes, expand the (pre-equals) name, and
put the dashes back. -/
def translateShortcutFlags (flagDefs : List Flag) (name : String) : String :=
  let twoDashes := (name.data.drop 1).head? == some '-'
  let trimmed := trimDashes name.data
  let body :=
    match charIndexOf '=' trimmed with
    | some i =>
      (expandShortcut flagDefs (String.mk (trimmed.take i))).data ++ trimmed.drop i
    | none => (expandShortcut flagDefs (String.mk trimmed)).data
  String.mk ((if twoDashes then ['-', '-'] else ['-']) ++ body)

/-- Whether the trimmed token ends with an equals sign
("trimmedFlag[len(trimmedFlag)-1] == 0x3d" in the default-command branch). -/
def trailingEq (s : String) : Bool :=
  match s.data.getLast? with
  | some c => c == '='
  | none => false

/-- The mutable locals of fixArgs: the two output accumulators, the
resolved command, the active mode and the pending-value bit. -/
structure FixState where
  flags : List String
  nonFlags : List String
  command : String
  parsingMode : FlagParsingMode
  previousFlagNeedsValue : Bool
deriving DecidableEq

/-- A flag of this kind consumes the next token as its value when no
equals sign is embedded: neither "*BoolFlag" nor "*verbosityFlag". -/
def flagNeedsValue (f : Flag) : Bool :=
  !(f.kind = FlagKind.boolKind : Bool) && !(f.kind = FlagKind.verbosityKind : Bool)

/-- The known-flag branch of the loop body: translate the token, strip a
trailing bare equals sign (resetting the equals position), and decide the
pending-value bit. -/
def flagFoundUpdate (flagDefs : List Flag) (f : Flag) (st : FixState)
    (arg : String) : FixState :=
  let targ := (translateShortcutFlags flagDefs arg).data
  match charIndexOf '=' targ with
  | some i =>
    if i = targ.length - 1 then
      { st with flags := st.flags ++ [String.mk (targ.take i)],
                previousFlagNeedsValue := flagNeedsValue f }
    else
      { st with flags := st.flags ++ [String.mk targ],
                previousFlagNeedsValue := false }
  | none =>
    { st with flags := st.flags ++ [String.mk targ],
              previousFlagNeedsValue := flagNeedsValue f }

/-- One iteration of the "for _, arg := range args" loop of fixArgs. -/
def fixArgsStep (flagDefs : List Flag) (cmdDefs : List Command)
    (defaultCommand : String) (st : FixState) (arg : String) : FixState :=
  if st.parsingMode = FlagParsingMode.skipped then
    { st with nonFlags := st.nonFlags ++ [arg] }
  else if arg = "--" then
    if arg = st.command then { st with parsingMode := .skipped }
    else { st with parsingMode := .skipped, nonFlags := st.nonFlags ++ [arg] }
  else if isFlagToken arg then
    match findFlag flagDefs (cleanFlag flagDefs arg) with
    | some f => flagFoundUpdate flagDefs f st arg
    | none =>
      if defaultCommand = "--" ∧ st.parsingMode = FlagParsingMode.normal then
        { st with flags := st.flags ++ [arg],
                  previousFlagNeedsValue := trailingEq (trimSpace arg) }
      else
        { st with nonFlags := st.nonFlags ++ [arg],
                  previousFlagNeedsValue := false }
  else if st.previousFlagNeedsValue then
    { st with flags := st.flags ++ [arg], previousFlagNeedsValue := false }
  else
    match (if st.command = "" then findCommand cmdDefs arg else none) with
    | some cmd =>
      { st with command := arg, previousFlagNeedsValue := false,
                parsingMode := cmd.flagParsing }
    | none =>
      if st.parsingMode = FlagParsingMode.skippedAfterFirstArg then
        { st with parsingMode := .skipped, nonFlags := st.nonFlags ++ [arg] }
      else
        { st with nonFlags := st.nonFlags ++ [arg] }

def fixArgsInit (defaultMode : FlagParsingMode) (defaultCommand : String) :
    FixState :=
  { flags := [], nonFlags := [], command := defaultCommand,
    parsingMode := defaultMode, previousFlagNeedsValue := false }

/-- The loop of fixArgs, folded over the raw tokens. -/
def fixArgsLoop (args : List String) (flagDefs : List Flag)
    (cmdDefs : List Command) (defaultMode : FlagParsingMode)
    (defaultCommand : String) : FixState :=
  args.foldl (fixArgsStep flagDefs cmdDefs defaultCommand)
    (fixArgsInit defaultMode defaultCommand)

/-- "fixArgs" (part_002): run the loop, then emit the flags, the command
accumulator when non-empty, and the non-flags. -/
def fixArgs (args : List String) (flagDefs : List Flag)
    (cmdDefs : List Command) (defaultMode : FlagParsingMode)
    (defaultCommand : String) : List String :=
  let st := fixArgsLoop args flagDefs cmdDefs defaultMode defaultCommand
  st.flags ++ (if st.command ≠ "" then [st.command] else []) ++ st.nonFlags

/-! ## Positional arguments (args.go) -/

/-- The "args" struct: the wrapped values and the command whose declared
argument list names positions. -/
structure ArgsModel where
  values : List String
  command : Option Command := none
deriving DecidableEq

/-- The loop of "args.Get": skip entries whose name differs or which are
slices; at the first hit return the value at that index when supplied,
else the declared default. -/
def argsGetAux (values : List String) (name : String) :
    List Arg → Nat → String
  | [], _ => ""
  | a :: rest, i =>
    if a.name ≠ name ∨ a.slice = true then argsGetAux values name rest (i + 1)
    else if values.length ≥ i + 1 then values.getD i ""
    else a.default

/-- "args.Get" (args.go): empty when no command is attached. -/
def argsGet (a : ArgsModel) (name : String) : String :=
  match a.command with
  | none => ""
  | some c => argsGetAux a.values name c.args 0

/-- The loop of "args.Tail" when a command is attached: find the first
slice argument and return the values from its index on when supplied,
else break out with the empty tail. -/
def argsTailAux (values : List String) : List Arg → Nat → List String
  | [], _ => []
  | a :: rest, i =>
    if a.slice = false then argsTailAux values rest (i + 1)
    else if values.length ≥ i + 1 then values.drop i
    else []

/-- "args.Tail" (args.go). -/
def argsTail (a : ArgsModel) : List String :=
  match a.command with
  | some c => argsTailAux a.values c.args 0
  | none => if a.values.length > 1 then a.values.drop 1 else []

/-- "args.Len". -/
def argsLen (a : ArgsModel) : Nat := a.values.length

/-! ## Required-argument validation (args_enhancement.go) -/

def requiredArgMessage (name : String) : String :=
  "Required argument \"" ++ name ++ "\" is not set"

/-- The loop of "checkRequiredArgs", threading the hasSliceArgument and
maximumArgsLen accumulators; "none" is the nil error. After the loop (or
after the break on a satisfied required slice argument, in which case
hasSliceArgument is true and the check cannot fire) the too-many-arguments
check runs. -/
def checkRequiredArgsLoop (ctxArgs : ArgsModel) :
    List Arg → Bool → Nat → Option String
  | [], hasSlice, maxLen =>
    if hasSlice = false ∧ argsLen ctxArgs > maxLen then some "Too many arguments"
    else none
  | a :: rest, hasSlice, maxLen =>
    let hasSlice2 := if a.slice then true else hasSlice
    let maxLen2 := if a.slice then maxLen else maxLen + 1
    if a.optional then checkRequiredArgsLoop ctxArgs rest hasSlice2 maxLen2
    else if a.slice then
      if (argsTail ctxArgs).length < 1 then some (requiredArgMessage a.name)
      else none
    else if argsGet ctxArgs a.name = "" then some (requiredArgMessage a.name)
    else checkRequiredArgsLoop ctxArgs rest hasSlice2 maxLen2

/-- "checkRequiredArgs(command, context)" (args_enhancement.go), with the
"context.Args()" view passed explicitly. -/
def checkRequiredArgs (command : Command) (ctxArgs : ArgsModel) :
    Option String :=
  checkRequiredArgsLoop ctxArgs command.args false 0

/-! ## The run error flow (part_010 Command.Run, application.go
Application.Run, part_005 multiError)

The flows are modelled as pure functions from the outcomes of the parsing
or validation stage and of the Before, Action and After callbacks to the
returned error; help rendering, exit-code side effects and the panic
recovery wrapper are output side effects with no influence on the
returned error value. -/

inductive CliError where
  | simple (msg : String)
  /-- "IncorrectUsageError" (part_005) -/
  | incorrectUsage (parentError : CliError)
  /-- "multiError" (part_005) -/
  | multi (errs : List CliError)

/-- "newMultiError" (part_005). -/
def newMultiError (errs : List CliError) : CliError := .multi errs

/-- The deferred After-hook wrapper shared by Command.Run (part_010,
lines 139-151) and Application.Run (application.go, lines 105-115):
a nil After error leaves the prior error alone; a non-nil one is combined
with a non-nil prior error into "newMultiError(err, afterErr)", or
returned alone when there was no prior error. -/
def afterHookCombine (err afterErr : Option CliError) : Option CliError :=
  match afterErr with
  | none => err
  | some ae =>
    match err with
    | some e => some (newMultiError [e, ae])
    | none => some ae

/-- The error flow of "Command.Run" (part_010): a parse or validation
error returns "IncorrectUsageError" before the After defer is registered;
a help request returns nil, also before the defer; then the defer is
registered, Before short-circuits the Action, and the After combination
applies to whichever error is current on return. -/
def commandRunError (parseOrValidationErr : Option CliError)
    (helpRequested : Bool) (beforeErr actionErr afterErr : Option CliError) :
    Option CliError :=
  match parseOrValidationErr with
  | some e => some (.incorrectUsage e)
  | none =>
    if helpRequested then none
    else
      match beforeErr with
      | some e => afterHookCombine (some e) afterErr
      | none => afterHookCombine actionErr afterErr

/-- The error flow of "Application.Run" (application.go): a flag-validity
error is returned raw and a parse error wrapped in "IncorrectUsageError",
both before the After defer is registered at line 105; afterwards every
return path (Before error, help action, version display, command or
application action) passes through the deferred After combination. -/
def applicationRunError (validityErr parseErr beforeErr : Option CliError)
    (helpRequested : Bool) (helpActionErr : Option CliError)
    (versionRequested : Bool) (mainErr afterErr : Option CliError) :
    Option CliError :=
  match validityErr with
  | some e => some e
  | none =>
    match parseErr with
    | some e => some (.incorrectUsage e)
    | none =>
      match beforeErr with
      | some e => afterHookCombine (some e) afterErr
      | none =>
        if helpRequested then afterHookCombine helpActionErr afterErr
        else if versionRequested then afterHookCombine none afterErr
        else afterHookCombine mainErr afterErr

/-! ## The context chain (completion.go)

A "Context" is modelled through its "Lineage()": the list of scopes from
the innermost context to the root.  Each scope carries the flag
declarations of its "Command" and "App" references (when non-nil) and the
state of its "flag.FlagSet": the registered formal names and the names
reported by "FlagSet.Visit", that is the flags explicitly set on it. -/

structure ContextScope where
  /-- "Context.Command.Flags", none when "Command" is nil -/
  commandFlags : Option (List Flag) := none
  /-- "Context.App.Flags", none when "App" is nil -/
  appFlags : Option (List Flag) := none
  /-- the formal (registered) names of the flag set -/
  declared : List String := []
  /-- the names "FlagSet.Visit" reports as having been set -/
  visited : List String := []
deriving DecidableEq

/-- "lookupFlagSet" (completion.go): walk the lineage; at each scope the
name is expanded through the shortcut tables of that scope's command and
application flags (the updated name carries over to the next scope), and
the first scope whose flag set declares the expanded name wins. -/
def lookupFlagSetScopes : String → List ContextScope → Option ContextScope
  | _, [] => none
  | name, s :: rest =>
    let n1 := match s.commandFlags with
              | some fl => expandShortcut fl name
              | none => name
    let n2 := match s.appFlags with
              | some fl => expandShortcut fl n1
              | none => n1
    if n2 ∈ s.declared then some s else lookupFlagSetScopes n2 rest

/-- "lookupFlag" (completion.go): first command-declared flag along the
lineage whose names contain the (unexpanded) name, then the flags of the
App of the innermost context. -/
def lookupFlagScopes (name : String) (scopes : List ContextScope) :
    Option Flag :=
  match scopes.findSome? (fun s =>
    match s.commandFlags with
    | none => none
    | some fl => findFlag fl name) with
  | some f => some f
  | none =>
    match scopes.head? with
    | some s =>
      match s.appFlags with
      | some fl => findFlag fl name
      | none => none
    | none => none

/-- The environment-variable loop at the end of "Context.IsSet"
(completion.go, lines 1596-1601): each iteration trims the variable name,
reads the environment and then only continues, so the loop never
produces true. The loop is transcribed as it stands. -/
def isSetEnvLoop (env : String → String) : List String → Bool
  | [] => false
  | v :: rest =>
    if env (trimSpace v) ≠ "" then isSetEnvLoop env rest
    else isSetEnvLoop env rest

/-- "Context.IsSet" (completion.go): true when the flag set found by
lookupFlagSet visits a flag named exactly like the queried (unexpanded)
name; otherwise fall back to the environment loop on the flag found by
lookupFlag, whose EnvVars field every flag struct carries. -/
def contextIsSet (env : String → String) (name : String)
    (scopes : List ContextScope) : Bool :=
  let fromSet : Bool :=
    match lookupFlagSetScopes name scopes with
    | some s => decide (name ∈ s.visited)
    | none => false
  if fromSet then true
  else
    match lookupFlagScopes name scopes with
    | none => false
    | some f => isSetEnvLoop env f.envVars

/-- The loop of "Context.Args" (completion.go): copy the post-parse
arguments, skipping every literal "--". -/
def contextArgsValues : List String → List String
  | [] => []
  | a :: rest =>
    if a = "--" then contextArgsValues rest else a :: contextArgsValues rest

/-- "Context.Args": the filtered values bound to the context's command. -/
def contextArgs (raw : List String) (cmd : Option Command) : ArgsModel :=
  { values := contextArgsValues raw, command := cmd }

/-- "Context.rawArgs": the post-parse arguments untouched and without a
command attached. -/
def contextRawArgs (raw : List String) : ArgsModel :=
  { values := raw, command := none }

/-! ## Fixtures

The application declared in TestFixAndParseArgsApplication (args.go): five
global flags ("v", "server-id", "server-token", "config" and "quiet" with
alias "q") and the commands "agent", "curl", "upload", "foo" and "run",
the last two with the Skipped and SkippedAfterFirstArg parsing modes, all
sharing the upload flag set ("reference"/"r", "samples"/"s", boolean
"test"/"t"). -/

def referenceFlag : Flag := { name := "reference", aliases := ["r"] }

def samplesFlag : Flag := { name := "samples", aliases := ["s"] }

def testBoolFlag : Flag := { name := "test", aliases := ["t"], kind := .boolKind }

def testAppUploadFlags : List Flag := [referenceFlag, samplesFlag, testBoolFlag]

def vIntFlag : Flag := { name := "v" }

def serverIdFlag : Flag := { name := "server-id" }

def serverTokenFlag : Flag := { name := "server-token" }

def configFlag : Flag := { name := "config" }

def quietBoolFlag : Flag := { name := "quiet", aliases := ["q"], kind := .boolKind }

def testAppFlags : List Flag :=
  [vIntFlag, serverIdFlag, serverTokenFlag, configFlag, quietBoolFlag]

def agentCmd : Command := { name := "agent" }

def curlCmd : Command := { name := "curl" }

def uploadCmd : Command := { name := "upload" }

def fooCmd : Command := { name := "foo", flagParsing := .skipped }

def runCmd : Command := { name := "run", flagParsing := .skippedAfterFirstArg }

def testAppCommands : List Command := [agentCmd, curlCmd, uploadCmd, fooCmd, runCmd]

/-- The two commands of the fuzzy-resolution scenario. -/
def projectListCmd : Command := { name := "list", category := "project" }

def projectLinkCmd : Command := { name := "link", category := "project" }

def projectCommands : List Command := [projectListCmd, projectLinkCmd]

/-! ## Claim theorems -/

/-- C2: for the application whose command "run" uses the
SkippedAfterFirstArg parsing mode and whose global flags include "v",
fixArgs maps the tokens "run -v=4 --reference 8 php vd.php" to exactly
"-v=4 run --reference 8 php vd.php": the recognized global flag "-v=4" is
lifted in front of the command name while "--reference", "8", "php" and
"vd.php" stay behind it, untouched and in input order. -/
theorem fixArgs_run_skippedAfterFirstArg_scenario :
    fixArgs ["run", "-v=4", "--reference", "8", "php", "vd.php"]
      testAppFlags testAppCommands .normal ""
      = ["-v=4", "run", "--reference", "8", "php", "vd.php"] := by
  decide

/-- C6: for the application declaring global flags "v" and "quiet" (alias
"q") and a command "upload" owning the flag "reference", fixArgs maps
"-reference=4 --v=3 -q upload file1 file2" to exactly
"--v=3 -quiet upload -reference=4 file1 file2": the recognized global
flags are lifted to the front, the alias "-q" is rewritten to the
canonical "-quiet", and the unrecognized "-reference=4" stays with the
positionals after the command name. -/
theorem fixArgs_upload_globalFlags_scenario :
    fixArgs ["-reference=4", "--v=3", "-q", "upload", "file1", "file2"]
      testAppFlags testAppCommands .normal ""
      = ["--v=3", "-quiet", "upload", "-reference=4", "file1", "file2"] := by
  decide

/-- C5: with only the commands "project:list" and "project:link",
BestCommand returns no match for the ambiguous "project:l" (two fuzzy
candidates) and resolves each of "project:list" (exact), "pro:list" and
"p:lis" (unique segment-wise prefix matches) to the "project:list"
command. -/
theorem bestCommand_projectList_scenario :
    bestCommand projectCommands "project:l" = none
    ∧ bestCommand projectCommands "project:list" = some projectListCmd
    ∧ bestCommand projectCommands "pro:list" = some projectListCmd
    ∧ bestCommand projectCommands "p:lis" = some projectListCmd := by
  refine ⟨by decide, by decide, by decide, by decide⟩

/-- C1 counterexample: the relative input order of the command token and
the positional tokens is not preserved.  On the input "file1 upload" the
positional "file1" precedes the command token "upload", yet the output is
"upload file1": the resolved command is always emitted before every
positional, so the input subsequence "file1 upload" does not survive into
the output. -/
theorem fixArgs_commandPositionalOrder_cex :
    fixArgs ["file1", "upload"] testAppFlags testAppCommands .normal ""
      = ["upload", "file1"]
    ∧ ¬ List.Sublist ["file1", "upload"]
        (fixArgs ["file1", "upload"] testAppFlags testAppCommands .normal "") := by
  refine ⟨by decide, by decide⟩

/-- C3 counterexample: after the known value flag "-s" (canonical
"samples") sets the pending-value bit, the next token "-t" is not
appended verbatim as the value: the flag branch is checked first, so
"-t" is reclassified as the boolean flag "test", rewritten to "-test",
and the pending-value bit is discarded.  The token "-t" does not appear
anywhere in the output. -/
theorem fixArgsStep_pendingValue_cex :
    (fixArgsLoop ["-s"] testAppUploadFlags [uploadCmd] .normal
        "").previousFlagNeedsValue = true
    ∧ fixArgs ["-s", "-t", "upload"] testAppUploadFlags [uploadCmd] .normal ""
        = ["-samples", "-test", "upload"]
    ∧ "-t" ∉ fixArgs ["-s", "-t", "upload"] testAppUploadFlags [uploadCmd]
        .normal "" := by
  refine ⟨by decide, by decide, by decide⟩

/-- C4 counterexample: a literal "--" that differs from the resolved
command name is not dropped — it is the token that is kept, appended to
the positional output.  On "run --" the command resolves to "run", the
terminator differs from it, and yet "--" appears in the output. -/
theorem fixArgs_terminatorDrop_cex :
    fixArgs ["run", "--"] testAppFlags testAppCommands .normal ""
      = ["run", "--"]
    ∧ (fixArgsLoop ["run", "--"] testAppFlags testAppCommands .normal
        "").command = "run"
    ∧ "--" ∈ fixArgs ["run", "--"] testAppFlags testAppCommands .normal "" := by
  refine ⟨by decide, by decide, by decide⟩

/-- The command of the C7 counterexample: a single non-optional,
non-slice argument that carries a non-empty declared default. -/
def defaultedArgCmd : Command :=
  { name := "mycmd",
    args := [{ name := "path", default := "fallback.txt" }] }

/-- C7 counterexample: a command declaring exactly one non-optional,
non-slice argument is invoked with zero positionals and no usage error is
produced, because "args.Get" falls back to the non-empty declared default
of the argument and the required-argument check only fires on an empty
lookup. -/
theorem checkRequiredArgs_defaultedArg_cex :
    (defaultedArgCmd.args.length = 1
      ∧ ∀ a ∈ defaultedArgCmd.args, a.optional = false ∧ a.slice = false)
    ∧ checkRequiredArgs defaultedArgCmd (contextArgs [] (some defaultedArgCmd))
        = none := by
  refine ⟨⟨by decide, by decide⟩, by decide⟩

/-- The scopes of the C9 counterexample: the inner scope declares the
flag "x" without it being supplied, the outer scope declares it and had
it explicitly supplied. -/
def shadowInnerScope : ContextScope := { declared := ["x"] }

def shadowOuterScope : ContextScope := { declared := ["x"], visited := ["x"] }

/-- C9 counterexample: IsSet does not report a flag supplied in some
scope of the chain — only the nearest scope declaring the name is
consulted.  Here "x" was explicitly supplied in the outer scope, but the
inner scope also declares "x", shadows the lookup, and IsSet returns
false. -/
theorem contextIsSet_shadowedScope_cex :
    contextIsSet (fun _ => "") "x" [shadowInnerScope, shadowOuterScope] = false
    ∧ "x" ∈ shadowOuterScope.visited := by
  refine ⟨by decide, by decide⟩

/-! ## Helper lemmas -/

theorem flagFoundUpdate_nonFlags (flagDefs : List Flag) (f : Flag)
    (st : FixState) (arg : String) :
    (flagFoundUpdate flagDefs f st arg).nonFlags = st.nonFlags := by
  unfold flagFoundUpdate
  dsimp only
  split
  · split <;> rfl
  · rfl

theorem fixArgsStep_nonFlags_extend (fd : List Flag) (cd : List Command)
    (dc : String) (st : FixState) (a : String) :
    (fixArgsStep fd cd dc st a).nonFlags = st.nonFlags
    ∨ (fixArgsStep fd cd dc st a).nonFlags = st.nonFlags ++ [a] := by
  unfold fixArgsStep
  repeat' split
  all_goals simp [flagFoundUpdate_nonFlags]

theorem fixArgsLoop_nonFlags_extends (fd : List Flag) (cd : List Command)
    (dc : String) :
    ∀ (args : List String) (st : FixState),
      ∃ t, (List.foldl (fixArgsStep fd cd dc) st args).nonFlags
             = st.nonFlags ++ t
        ∧ List.Sublist t args := by
  intro args
  induction args with
  | nil => exact fun st => ⟨[], by simp, by simp⟩
  | cons a args ih =>
    intro st
    obtain ⟨t, ht, hsub⟩ := ih (fixArgsStep fd cd dc st a)
    rcases fixArgsStep_nonFlags_extend fd cd dc st a with h | h
    · refine ⟨t, ?_, hsub.cons a⟩
      rw [List.foldl_cons, ht, h]
    · refine ⟨a :: t, ?_, hsub.cons₂ a⟩
      rw [List.foldl_cons, ht, h, List.append_assoc]
      rfl

theorem fixArgsLoop_skipped_appends (fd : List Flag) (cd : List Command)
    (dc : String) :
    ∀ (post : List String) (st : FixState), st.parsingMode = .skipped →
      List.foldl (fixArgsStep fd cd dc) st post
        = { st with nonFlags := st.nonFlags ++ post } := by
  intro post
  induction post with
  | nil => intro st _; simp
  | cons a post ih =>
    intro st h
    rw [List.foldl_cons]
    have hstep : fixArgsStep fd cd dc st a
        = { st with nonFlags := st.nonFlags ++ [a] } := by
      simp [fixArgsStep, h]
    rw [hstep, ih _ (by simpa using h)]
    simp

theorem isSetEnvLoop_eq_false (env : String → String) :
    ∀ l : List String, isSetEnvLoop env l = false := by
  intro l
  induction l with
  | nil => rfl
  | cons v rest ih => simp [isSetEnvLoop, ih]

theorem contextArgsValues_eq_filter :
    ∀ raw : List String,
      contextArgsValues raw = raw.filter (fun a => !(a == "--")) := by
  intro raw
  induction raw with
  | nil => rfl
  | cons a rest ih =>
    by_cases h : a = "--" <;>
      simp [contextArgsValues, h, ih, List.filter_cons]

theorem terminator_not_mem_contextArgsValues (raw : List String) :
    "--" ∉ contextArgsValues raw := by
  rw [contextArgsValues_eq_filter]
  simp [List.mem_filter]

theorem getD_mem_of_lt {l : List String} {i : Nat} (h : i < l.length)
    (d : String) : l.getD i d ∈ l := by
  have hg : l.get? i = some (l.get ⟨i, h⟩) := List.get?_eq_get h
  simp only [List.getD, hg, Option.getD_some]
  exact List.get_mem l i h

theorem argsGetAux_sources (values : List String) (name : String) :
    ∀ (argsL : List Arg) (i : Nat),
      argsGetAux values name argsL i = ""
      ∨ argsGetAux values name argsL i ∈ values
      ∨ ∃ a, a ∈ argsL ∧ argsGetAux values name argsL i = a.default := by
  intro argsL
  induction argsL with
  | nil => exact fun i => Or.inl rfl
  | cons a rest ih =>
    intro i
    by_cases hc : a.name ≠ name ∨ a.slice = true
    · rw [argsGetAux, if_pos hc]
      rcases ih (i + 1) with h | h | ⟨b, hb, he⟩
      · exact Or.inl h
      · exact Or.inr (Or.inl h)
      · exact Or.inr (Or.inr ⟨b, List.mem_cons_of_mem a hb, he⟩)
    · rw [argsGetAux, if_neg hc]
      by_cases hlen : values.length ≥ i + 1
      · rw [if_pos hlen]
        exact Or.inr (Or.inl (getD_mem_of_lt (Nat.lt_of_succ_le hlen) ""))
      · rw [if_neg hlen]
        exact Or.inr (Or.inr ⟨a, List.mem_cons_self a rest, rfl⟩)

/-! ## Amended claim theorems -/

/-- C1 (amended): for every raw token list processed in Normal starting
mode, the fixArgs output equals the flags accumulator, followed by the
final command accumulator when non-empty (the resolved command name, or a
non-empty default-command sentinel), followed by the non-flags
accumulator — so every token the scan classified as a flag (with its
pending value token) precedes the command name; and the non-flags are a
subsequence of the input, that is the relative order of the positional
tokens among themselves is preserved, the command name being placed
before all of them regardless of where the command token appeared in the
input. -/
theorem fixArgs_output_decomposition (args : List String)
    (flagDefs : List Flag) (cmdDefs : List Command) (defaultCommand : String) :
    fixArgs args flagDefs cmdDefs .normal defaultCommand
      = (fixArgsLoop args flagDefs cmdDefs .normal defaultCommand).flags
        ++ (if (fixArgsLoop args flagDefs cmdDefs .normal defaultCommand).command ≠ ""
            then [(fixArgsLoop args flagDefs cmdDefs .normal defaultCommand).command]
            else [])
        ++ (fixArgsLoop args flagDefs cmdDefs .normal defaultCommand).nonFlags
    ∧ List.Sublist
        (fixArgsLoop args flagDefs cmdDefs .normal defaultCommand).nonFlags
        args := by
  constructor
  · rfl
  · obtain ⟨t, ht, hsub⟩ :=
      fixArgsLoop_nonFlags_extends flagDefs cmdDefs defaultCommand args
        (fixArgsInit .normal defaultCommand)
    have hinit : (fixArgsInit FlagParsingMode.normal defaultCommand).nonFlags = [] := rfl
    rw [fixArgsLoop, ht, hinit, List.nil_append]
    exact hsub

/-- C3 (amended): whenever the previous token was classified as a known
flag expecting its value in the next token and the current token is not
itself flag-looking (and is not the literal terminator, the mode not
being Skipped), the current token is appended verbatim to the flags
accumulator as that value and the pending-value bit is cleared.  A
flag-looking current token is instead classified as a flag again: the
flag branch is tested before the pending-value bit. -/
theorem fixArgsStep_pendingValue (flagDefs : List Flag)
    (cmdDefs : List Command) (defaultCommand : String) (st : FixState)
    (arg : String) (hmode : st.parsingMode ≠ .skipped) (hterm : arg ≠ "--")
    (hflag : isFlagToken arg = false)
    (hpend : st.previousFlagNeedsValue = true) :
    fixArgsStep flagDefs cmdDefs defaultCommand st arg
      = { st with flags := st.flags ++ [arg],
                  previousFlagNeedsValue := false } := by
  simp [fixArgsStep, hmode, hterm, hflag, hpend]

/-- Witness for the C3 theorem: after the value flag "-s" the ordinary
token "5" is appended to the flags and the pending-value bit cleared. -/
theorem fixArgsStep_pendingValue_witness :
    fixArgsStep testAppUploadFlags [uploadCmd] ""
        { flags := ["-samples"], nonFlags := [], command := "",
          parsingMode := .normal, previousFlagNeedsValue := true } "5"
      = { flags := ["-samples", "5"], nonFlags := [], command := "",
          parsingMode := .normal, previousFlagNeedsValue := false } :=
  fixArgsStep_pendingValue testAppUploadFlags [uploadCmd] ""
    { flags := ["-samples"], nonFlags := [], command := "",
      parsingMode := .normal, previousFlagNeedsValue := true } "5"
    (by decide) (by decide) (by decide) rfl

/-- C4 (amended): a literal terminator token switches the parsing mode to
Skipped permanently — every subsequent token is appended verbatim and
unmodified to the positional output — and the terminator itself is
appended to the positional output unless it equals the current command
accumulator (the resolved command name or the default-command sentinel),
in which case it is skipped there. -/
theorem fixArgsStep_terminator (flagDefs : List Flag)
    (cmdDefs : List Command) (defaultCommand : String) (st : FixState)
    (post : List String) :
    (st.parsingMode ≠ .skipped →
      fixArgsStep flagDefs cmdDefs defaultCommand st "--"
        = if "--" = st.command
          then { st with parsingMode := .skipped }
          else { st with parsingMode := .skipped,
                         nonFlags := st.nonFlags ++ ["--"] })
    ∧ (st.parsingMode = .skipped →
        List.foldl (fixArgsStep flagDefs cmdDefs defaultCommand) st post
          = { st with nonFlags := st.nonFlags ++ post }) := by
  constructor
  · intro hmode
    simp only [fixArgsStep, if_neg hmode]
    split <;> simp_all
  · exact fun h =>
      fixArgsLoop_skipped_appends flagDefs cmdDefs defaultCommand post st h

/-- Witness for the C4 theorem: the terminator after the resolved command
"run" flips the mode and lands in the positional output, and from a
Skipped state the tokens "-x" and "y" are passed through verbatim. -/
theorem fixArgsStep_terminator_witness :
    fixArgsStep testAppFlags testAppCommands ""
        { flags := [], nonFlags := [], command := "run",
          parsingMode := .skippedAfterFirstArg, previousFlagNeedsValue := false }
        "--"
      = { flags := [], nonFlags := ["--"], command := "run",
          parsingMode := .skipped, previousFlagNeedsValue := false }
    ∧ List.foldl (fixArgsStep testAppFlags testAppCommands "")
        { flags := [], nonFlags := ["--"], command := "run",
          parsingMode := .skipped, previousFlagNeedsValue := false }
        ["-x", "y"]
      = { flags := [], nonFlags := ["--", "-x", "y"], command := "run",
          parsingMode := .skipped, previousFlagNeedsValue := false } :=
  ⟨(fixArgsStep_terminator testAppFlags testAppCommands ""
      { flags := [], nonFlags := [], command := "run",
        parsingMode := .skippedAfterFirstArg, previousFlagNeedsValue := false }
      []).1 (by decide),
   (fixArgsStep_terminator testAppFlags testAppCommands ""
      { flags := [], nonFlags := ["--"], command := "run",
        parsingMode := .skipped, previousFlagNeedsValue := false }
      ["-x", "y"]).2 rfl⟩

/-- C7 (amended): for every command declaring exactly one argument which
is non-optional, non-slice and has an empty declared default, invoking it
with zero positional arguments yields a usage error whose message names
that argument; inside Command.Run such a validation error is wrapped as
an incorrect-usage error and returned before the Before, Action and After
callbacks can contribute, whatever their outcomes. -/
theorem checkRequiredArgs_missingRequiredArg (c : Command) (nm ds : String)
    (h : c.args = [{ name := nm, default := "", description := ds,
                     optional := false, slice := false }]) :
    checkRequiredArgs c (contextArgs [] (some c))
      = some (requiredArgMessage nm)
    ∧ ∀ (helpRequested : Bool) (beforeErr actionErr afterErr : Option CliError),
        commandRunError (some (.simple (requiredArgMessage nm))) helpRequested
            beforeErr actionErr afterErr
          = some (.incorrectUsage (.simple (requiredArgMessage nm))) := by
  constructor
  · have hget : argsGet (contextArgs [] (some c)) nm = "" := by
      simp [argsGet, contextArgs, contextArgsValues, h, argsGetAux]
    simp [checkRequiredArgs, h, checkRequiredArgsLoop, hget]
  · intro hr b a af
    rfl

/-- Witness for the C7 theorem at a concrete command with one required
argument named "target". -/
theorem checkRequiredArgs_missingRequiredArg_witness :
    checkRequiredArgs
        { name := "deploy",
          args := [{ name := "target", default := "", description := "",
                     optional := false, slice := false }] }
        (contextArgs []
          (some { name := "deploy",
                  args := [{ name := "target", default := "", description := "",
                             optional := false, slice := false }] }))
      = some (requiredArgMessage "target")
    ∧ ∀ (helpRequested : Bool) (beforeErr actionErr afterErr : Option CliError),
        commandRunError (some (.simple (requiredArgMessage "target")))
            helpRequested beforeErr actionErr afterErr
          = some (.incorrectUsage (.simple (requiredArgMessage "target"))) :=
  checkRequiredArgs_missingRequiredArg
    { name := "deploy",
      args := [{ name := "target", default := "", description := "",
                 optional := false, slice := false }] }
    "target" "" rfl

/-- C8: for every command or application invocation whose After hook
returns a non-nil error, once the flow has passed the parse and
validation stage: when a prior error exists (from Before, or from the
action when Before succeeded) the returned error is the multi-error
containing exactly the prior error and the After error, and when no prior
error exists the After error alone is returned — the After error never
replaces and discards a prior error. -/
theorem afterHook_errorsCombined (beforeErr actionErr : Option CliError)
    (ae : CliError) :
    commandRunError none false beforeErr actionErr (some ae)
      = some (match beforeErr with
              | some pe => newMultiError [pe, ae]
              | none =>
                match actionErr with
                | some pe => newMultiError [pe, ae]
                | none => ae)
    ∧ applicationRunError none none beforeErr false none false actionErr
        (some ae)
      = some (match beforeErr with
              | some pe => newMultiError [pe, ae]
              | none =>
                match actionErr with
                | some pe => newMultiError [pe, ae]
                | none => ae) := by
  cases beforeErr <;> cases actionErr <;> exact ⟨rfl, rfl⟩

/-- C9 (amended): IsSet is true exactly when the queried name is among
the explicitly supplied flags of the nearest scope of the context chain
that declares it (after per-scope alias expansion); the environment never
contributes — the result is independent of the environment even when a
declared environment variable of the flag holds a non-empty value. -/
theorem contextIsSet_characterization (env : String → String) (name : String)
    (scopes : List ContextScope) :
    (contextIsSet env name scopes = true
      ↔ ∃ s, lookupFlagSetScopes name scopes = some s ∧ name ∈ s.visited)
    ∧ ∀ env2 : String → String,
        contextIsSet env name scopes = contextIsSet env2 name scopes := by
  constructor
  · cases hfs : lookupFlagSetScopes name scopes with
    | none =>
      cases hf : lookupFlagScopes name scopes <;>
        simp [contextIsSet, hfs, hf, isSetEnvLoop_eq_false]
    | some s =>
      by_cases hv : name ∈ s.visited
      · simp [contextIsSet, hfs, hv]
      · cases hf : lookupFlagScopes name scopes <;>
          simp [contextIsSet, hfs, hf, hv, isSetEnvLoop_eq_false]
  · intro env2
    cases hfs : lookupFlagSetScopes name scopes <;>
      cases hf : lookupFlagScopes name scopes <;>
        simp [contextIsSet, hfs, hf, isSetEnvLoop_eq_false]

/-- Witness for the C9 theorem on a one-scope chain where the flag "y"
was explicitly supplied. -/
theorem contextIsSet_characterization_witness :
    (contextIsSet (fun _ => "") "y"
        [{ declared := ["y"], visited := ["y"] }] = true
      ↔ ∃ s, lookupFlagSetScopes "y" [{ declared := ["y"], visited := ["y"] }]
               = some s ∧ "y" ∈ s.visited)
    ∧ ∀ env2 : String → String,
        contextIsSet (fun _ => "") "y" [{ declared := ["y"], visited := ["y"] }]
          = contextIsSet env2 "y" [{ declared := ["y"], visited := ["y"] }] :=
  contextIsSet_characterization (fun _ => "") "y"
    [{ declared := ["y"], visited := ["y"] }]

/-- C10: Context.Args returns the post-parse arguments with every literal
terminator element removed, whereas the rawArgs view keeps the values
untouched; consequently a terminator token from the input is never the
value bound to a declared positional argument of the executing command —
args.Get can only produce the terminator string out of a declared
default, never out of the filtered values. -/
theorem contextArgs_terminatorHandling (raw : List String) (cmd : Command)
    (name : String) :
    contextArgsValues raw = raw.filter (fun a => !(a == "--"))
    ∧ "--" ∉ (contextArgs raw (some cmd)).values
    ∧ (contextRawArgs raw).values = raw
    ∧ (argsGet (contextArgs raw (some cmd)) name = "--" →
        ∃ a, a ∈ cmd.args ∧ a.default = "--") := by
  refine ⟨contextArgsValues_eq_filter raw,
          terminator_not_mem_contextArgsValues raw, rfl, ?_⟩
  intro hget
  have hunfold : argsGet (contextArgs raw (some cmd)) name
      = argsGetAux (contextArgsValues raw) name cmd.args 0 := rfl
  rw [hunfold] at hget
  rcases argsGetAux_sources (contextArgsValues raw) name cmd.args 0
    with h | h | ⟨a, ha, he⟩
  · rw [hget] at h
    exact absurd h (by decide)
  · rw [hget] at h
    exact absurd h (terminator_not_mem_contextArgsValues raw)
  · exact ⟨a, ha, by rw [← he, hget]⟩

/-- Witness for the C10 theorem on the post-parse arguments
"a -- b" of the command "upload" with no declared arguments. -/
theorem contextArgs_terminatorHandling_witness :
    contextArgsValues ["a", "--", "b"]
        = ["a", "--", "b"].filter (fun a => !(a == "--"))
    ∧ "--" ∉ (contextArgs ["a", "--", "b"] (some uploadCmd)).values
    ∧ (contextRawArgs ["a", "--", "b"]).values = ["a", "--", "b"]
    ∧ (argsGet (contextArgs ["a", "--", "b"] (some uploadCmd)) "path" = "--" →
        ∃ a, a ∈ uploadCmd.args ∧ a.default = "--") :=
  contextArgs_terminatorHandling ["a", "--", "b"] uploadCmd "path"

end Console
